import Mathlib

/-!
# MapSieve-AI — Resilient Extraction & Reconciliation Pipeline, formalised

Shallow embedding of the core pipeline of the MapSieve-AI repository:

* the identity-preserving deduplicator `deduplicatePlaces` (src/unnamed/part_005),
* the transient-failure retry controller `retryOperation` (src/unnamed/part_005),
* the grounding cross-referencer inside `analyzeMapData` (src/unnamed/part_005),
* the structured-response recovery parser `cleanAndParseJSON` (src/unnamed/part_005),
* the location label decomposer `parseLocation` (src/unnamed/part_008 / src/App.tsx).

JavaScript conventions used throughout the embedding:

* optional string fields (`address?: string`, `googleMapsUri?: string`, ...) are
  `Option String`; JS truthiness (`undefined`, `null` and `""` are falsy) is
  `jsTruthy`;
* `isVerified?: boolean` is a `Bool` (an absent field behaves exactly like
  `false` in every truth test the code performs);
* JS numbers that the verified code only ever stores and compares for equality
  (`ratingPrediction`, `lat`, `lng`, status codes) are modelled as `Int`;
* `String.prototype.includes` is substring containment on the character list;
* `toLowerCase` is modelled on ASCII letters (`jsToLower`), which is exact for
  every string the proofs below evaluate.
-/

namespace MapSieve

/-! ## JS string primitives -/

/-- JS truthiness of an optional string: `undefined`/absent and `""` are falsy. -/
def jsTruthy : Option String → Bool
  | none => false
  | some s => s ≠ ""

/-- Does `needle` occur as a contiguous run inside `hay`? -/
def listContains (hay needle : List Char) : Bool :=
  match hay with
  | [] => needle.isEmpty
  | _ :: rest => needle.isPrefixOf hay || listContains rest needle

/-- `a.includes(b)`: substring containment. -/
def strContains (s sub : String) : Bool :=
  listContains s.toList sub.toList

/-- ASCII `toLowerCase`, the fragment of JS `toLowerCase` exercised here. -/
def jsToLower (c : Char) : Char :=
  if 'A' ≤ c ∧ c ≤ 'Z' then Char.ofNat (c.toNat + 32) else c

/-- `.replace(/\s+/g, '')`: drop every whitespace character. -/
def removeWS (cs : List Char) : List Char :=
  cs.filter (fun c => ¬ c.isWhitespace)

/-- JS `.split(' ')`: split on each single space character.
`""` splits to `[""]`, `"a  b"` to `["a", "", "b"]`, like in JS. -/
def splitOnSpace : List Char → List (List Char)
  | [] => [[]]
  | c :: rest =>
    match splitOnSpace rest with
    | [] => [[c]]
    | t :: ts => if c = ' ' then [] :: t :: ts else (c :: t) :: ts

/-! ## Data model (src/unnamed/part_004, types.ts) -/

/-- `CategoryType` enum. -/
inductive CategoryType where
  | FOOD | DRINK | SIGHTSEEING | SHOPPING | ACTIVITY | LODGING | OTHER
  deriving DecidableEq, Repr

/-- `coordinates?: { lat: number; lng: number }`. The verified code only tests
presence and equality of coordinates, so the numbers are embedded as `Int`. -/
structure Coordinates where
  lat : Int
  lng : Int
  deriving DecidableEq, Repr

/-- `interface Place` (src/unnamed/part_004). -/
structure Place where
  id : String
  name : String
  originalText : String
  category : CategoryType
  subCategory : String
  description : String
  ratingPrediction : Int
  priceLevel : String
  tags : List String
  locationGuess : String
  address : Option String
  openingHours : Option String
  coordinates : Option Coordinates
  googleMapsUri : Option String
  isVerified : Bool
  imageUri : Option String
  websiteUri : Option String
  deriving DecidableEq, Repr

/-- `interface AnalysisResult`. -/
structure AnalysisResult where
  places : List Place
  summary : String
  suggestedItinerary : Option String
  deriving DecidableEq, Repr

/-! ## Deduplicator (src/unnamed/part_005, `deduplicatePlaces`, lines 58–118) -/

/-- Key generation of `deduplicatePlaces` (part_005 lines 61–75):
`if (p.googleMapsUri && !p.googleMapsUri.includes('search')) key = "URI:" + uri`
else `key = "NAME:" + normName + "-" + normLoc` where
`normName = p.name.toLowerCase().replace(/\s+/g, '')` and
`normLoc = (p.locationGuess || '').split(' ')[0].toLowerCase().replace(/\s+/g, '')`. -/
def dedupKey (p : Place) : String :=
  if jsTruthy p.googleMapsUri ∧ ¬ strContains (p.googleMapsUri.getD "") "search" then
    "URI:" ++ p.googleMapsUri.getD ""
  else
    let normName := String.mk (removeWS (p.name.toList.map jsToLower))
    let normLoc :=
      String.mk (removeWS (((splitOnSpace p.locationGuess.toList).headD []).map jsToLower))
    "NAME:" ++ normName ++ "-" ++ normLoc

/-- The JS `Map<string, Place>`: an insertion-ordered association list. -/
abbrev DMap := List (String × Place)

/-- `uniqueMap.get(key)`. -/
def mapGet (m : DMap) (k : String) : Option Place :=
  (m.find? (fun kp => kp.1 == k)).map (·.2)

/-- `uniqueMap.set(key, v)`: JS `Map.set` overwrites in place when the key is
present and appends at the end otherwise (insertion order is preserved). -/
def mapSet (m : DMap) (k : String) (v : Place) : DMap :=
  if m.any (fun kp => kp.1 == k) then
    m.map (fun kp => if kp.1 == k then (k, v) else kp)
  else
    m ++ [(k, v)]

/-- The body of the `places.forEach` loop of `deduplicatePlaces` (lines 61–115).
The completeness scores are the source's scores doubled (coordinates 2→4,
address 1→2, image 1→2, longer-description 0.5→1) so that they live in `Nat`;
doubling preserves every comparison the code makes. -/
def dedupStep (m : DMap) (p : Place) : DMap :=
  let key := dedupKey p
  match mapGet m key with
  | none => mapSet m key p
  | some existing =>
    if ¬ existing.isVerified ∧ p.isVerified then
      -- New one is better, replace but KEEP OLD ID
      mapSet m key { p with id := existing.id }
    else if existing.isVerified ∧ ¬ p.isVerified then
      m -- Existing is better
    else
      let scoreExisting :=
        (if existing.coordinates.isSome then 4 else 0) +
        (if jsTruthy existing.address then 2 else 0) +
        (if jsTruthy existing.imageUri then 2 else 0) +
        (if existing.description.length > p.description.length then 1 else 0)
      let scoreNew :=
        (if p.coordinates.isSome then 4 else 0) +
        (if jsTruthy p.address then 2 else 0) +
        (if jsTruthy p.imageUri then 2 else 0) +
        (if existing.description.length > p.description.length then 0 else 1)
      if scoreNew > scoreExisting then mapSet m key { p with id := existing.id }
      else m

/-- `deduplicatePlaces` (part_005 lines 58–118): fold the loop body over the
input, then `Array.from(uniqueMap.values())`. -/
def deduplicatePlaces (places : List Place) : List Place :=
  (places.foldl dedupStep []).map (·.2)

/-! ## Retry controller (src/unnamed/part_005, `retryOperation`, lines 123–163) -/

/-- A JS status value: a numeric code (`500`) or a string sentinel (`'INTERNAL'`). -/
inductive StatusV where
  | num (n : Int)
  | str (s : String)
  deriving DecidableEq, Repr

/-- The shape of a thrown error object as probed by `retryOperation`:
`error.status`, `error.error?.code`, `error.error?.status`, `error.message`,
`error.error?.message`. A thrown `null`/`undefined` is `Option.none` of
`Option JsErrObj` at the use sites. -/
structure JsErrObj where
  status : Option StatusV
  nestedCode : Option StatusV
  nestedStatus : Option StatusV
  message : Option String
  nestedMessage : Option String
  deriving DecidableEq, Repr

/-- JS truthiness of a status value: `0` and `""` are falsy. -/
def statusTruthy : Option StatusV → Bool
  | none => false
  | some (.num n) => n ≠ 0
  | some (.str s) => s ≠ ""

/-- `error.status || error?.error?.code || error?.error?.status`. -/
def effStatus (e : JsErrObj) : Option StatusV :=
  if statusTruthy e.status then e.status
  else if statusTruthy e.nestedCode then e.nestedCode
  else e.nestedStatus

/-- `error.message || error?.error?.message || ''`. -/
def effMessage (e : JsErrObj) : String :=
  match e.message with
  | some m => if m ≠ "" then m else (e.nestedMessage.getD "")
  | none => e.nestedMessage.getD ""

/-- The transient-failure classification of `retryOperation` (lines 138–148). -/
def isRetryable (e : JsErrObj) : Bool :=
  effStatus e == some (.num 500) ||
  effStatus e == some (.num 503) ||
  effStatus e == some (.str "INTERNAL") ||
  (strContains (effMessage e) "Internal error" ||
   strContains (effMessage e) "500" ||
   strContains (effMessage e) "503" ||
   strContains (effMessage e) "Overloaded" ||
   strContains (effMessage e) "capacity")

/-- The error synthesised when a `null` error arrives with no retries left:
`new Error("Unknown error occurred (Script Error).")`. -/
def scriptError : JsErrObj :=
  { status := none, nestedCode := none, nestedStatus := none
    message := some "Unknown error occurred (Script Error).", nestedMessage := none }

/-- `retryOperation(operation, retries, delay)` (part_005 lines 123–163).

The async operation is embedded as the sequence of its invocation outcomes:
`op n` is what the `n`-th invocation (0-based) returns or throws, a thrown
`null`/`undefined` value being `Except.error none`. The result is the pair of
the total number of invocations performed and the settled outcome; `delay`
doubles on every recursion exactly as in the source (the `setTimeout` sleep
itself has no observable effect in the embedding). -/
def retryOperation (op : Nat → Except (Option JsErrObj) α) (retries : Nat) (delay : Nat)
    (idx : Nat) : Nat × Except (Option JsErrObj) α :=
  match op idx, retries with
  | .ok v, _ => (1, .ok v)
  | .error none, 0 =>
    -- GUARD: if (!error) { if (retries <= 0) throw new Error("Unknown ... (Script Error).") }
    (1, .error (some scriptError))
  | .error none, r + 1 =>
    -- a null error with retries left falls through to the retry
    let rest := retryOperation op r (delay * 2) (idx + 1)
    (rest.1 + 1, rest.2)
  | .error (some e), 0 =>
    -- whether or not `isRetryable e`, both `throw error` sites rethrow `e`
    (1, .error (some e))
  | .error (some e), r + 1 =>
    if ¬ isRetryable e then (1, .error (some e))
    else
      let rest := retryOperation op r (delay * 2) (idx + 1)
      (rest.1 + 1, rest.2)

/-! ## Grounding cross-referencer (src/unnamed/part_005, `analyzeMapData`,
lines 277–307) -/

/-- `encodeURIComponent`: unreserved characters pass through, every other
character is percent-encoded byte-wise over its UTF-8 encoding. -/
def hexDigit (n : Nat) : Char :=
  if n < 10 then Char.ofNat (48 + n) else Char.ofNat (55 + n)

/-- Percent-encode one byte, uppercase hex. -/
def byteHex (b : UInt8) : String :=
  "%" ++ String.singleton (hexDigit (b.toNat / 16)) ++ String.singleton (hexDigit (b.toNat % 16))

/-- Characters `encodeURIComponent` leaves intact. -/
def uriUnreserved (c : Char) : Bool :=
  c.isAlphanum || [Char.ofNat 45, Char.ofNat 95, Char.ofNat 46, Char.ofNat 33,
    Char.ofNat 126, Char.ofNat 42, Char.ofNat 39, Char.ofNat 40, Char.ofNat 41].contains c

/-- `encodeURIComponent(s)`. -/
def encodeURIComponent (s : String) : String :=
  String.join (s.toList.map (fun c =>
    if uriUnreserved c then String.singleton c
    else String.join (((String.singleton c).toUTF8.toList).map byteHex)))

/-- One grounding chunk `{ web?: {title?, uri?}, maps?: {title?, uri?} }`.
The code reads these fields only through `||` chains and truthiness tests, for
which an absent field and `""` are indistinguishable, so the embedding stores
plain strings with `""` for absent. -/
structure Chunk where
  webTitle : String
  webUri : String
  mapsTitle : String
  mapsUri : String
  deriving DecidableEq, Repr

/-- The `groundingChunks.find(...)` predicate (lines 284–289):
`title && (title.includes(p.name) || (url && url.includes(encodeURIComponent(p.name))))`
with `title = c.web?.title || c.maps?.title || ""` and
`url = c.web?.uri || c.maps?.uri || ""`. -/
def chunkMatches (name : String) (c : Chunk) : Bool :=
  let title := if c.webTitle ≠ "" then c.webTitle else c.mapsTitle
  let url := if c.webUri ≠ "" then c.webUri else c.mapsUri
  title ≠ "" && (strContains title name ||
    (url ≠ "" && strContains url (encodeURIComponent name)))

/-- The per-record body of `parsed.places.map((p, idx) => ...)` in
`analyzeMapData` (part_005 lines 278–307): grounding-evidence verification,
invalid-URI cleanup, and id backfill. `freshId` stands for the generated
`` `place-${idx}-${Date.now()}` `` string. -/
def processPlace (groundingChunks : Option (List Chunk)) (freshId : String)
    (p : Place) : Place :=
  let uri0 := p.googleMapsUri
  let found :=
    match groundingChunks with
    | none => none
    | some cs => cs.find? (chunkMatches p.name)
  let verdict :=
    match found with
    | some c =>
      if c.webUri ≠ "" then (some c.webUri, true)
      else if c.mapsUri ≠ "" then (some c.mapsUri, true)
      else (uri0, false)
    | none => (uri0, false)
  let uri1 := verdict.1
  -- Cleanup invalid URIs: if (uri && (uri.includes('search') || !uri.includes('google')))
  let uri2 :=
    if jsTruthy uri1 ∧ (strContains (uri1.getD "") "search" ∨
        ¬ strContains (uri1.getD "") "google") then none
    else uri1
  { p with id := if p.id ≠ "" then p.id else freshId
           googleMapsUri := uri2
           isVerified := verdict.2 }

/-! ## Recovery parser (src/unnamed/part_005, `cleanAndParseJSON`, lines 8–46) -/

/-- The backtick character, kept out of literals. -/
def backtick : Char := Char.ofNat 96

/-- `dropWhile` never lengthens a list (used for termination below). -/
theorem dropWhile_length_le (p : Char → Bool) (l : List Char) :
    (l.dropWhile p).length ≤ l.length := by
  induction l with
  | nil => simp [List.dropWhile]
  | cons c rest ih =>
    simp only [List.dropWhile, List.length_cons]
    split
    · omega
    · simp

/-- First pass of `text.replace(/```(?:json)?/gi, '')`: left-to-right,
non-overlapping removal of every triple backtick together with an immediately
following case-insensitive `json`. Structural recursion on a fuel that starts
at the input length; every step consumes at least one character, so the fuel
is never exhausted on the actual input (`stripFence1` below). -/
def stripFence1Fuel : Nat → List Char → List Char
  | 0, cs => cs
  | _ + 1, [] => []
  | f + 1, c :: rest =>
    if c = backtick ∧ rest.take 2 = [backtick, backtick] then
      let rest2 := rest.drop 2
      if (rest2.take 4).map jsToLower = ['j', 's', 'o', 'n'] then
        stripFence1Fuel f (rest2.drop 4)
      else
        stripFence1Fuel f rest2
    else c :: stripFence1Fuel f rest

/-- First fence replacement, fuelled by the input length. -/
def stripFence1 (cs : List Char) : List Char :=
  stripFence1Fuel cs.length cs

/-- Second pass `.replace(/```/g, '')`: removal of every remaining triple
backtick, with the same fuel discipline. -/
def stripFence2Fuel : Nat → List Char → List Char
  | 0, cs => cs
  | _ + 1, [] => []
  | f + 1, c :: rest =>
    if c = backtick ∧ rest.take 2 = [backtick, backtick] then
      stripFence2Fuel f (rest.drop 2)
    else c :: stripFence2Fuel f rest

/-- Second fence replacement, fuelled by the input length. -/
def stripFence2 (cs : List Char) : List Char :=
  stripFence2Fuel cs.length cs

/-- Step 1 of `cleanAndParseJSON`: both markdown-fence replacements. -/
def stripFences (s : String) : String :=
  String.mk (stripFence2 (stripFence1 s.toList))

/-- `indexOf`: position of the first occurrence of `c`, if any. -/
def firstIdx (cs : List Char) (c : Char) : Option Nat :=
  match cs with
  | [] => none
  | x :: rest => if x = c then some 0 else (firstIdx rest c).map (· + 1)

/-- `lastIndexOf`: position of the last occurrence of `c`, if any. -/
def lastIdx (cs : List Char) (c : Char) : Option Nat :=
  match cs with
  | [] => none
  | x :: rest =>
    match lastIdx rest c with
    | some i => some (i + 1)
    | none => if x = c then some 0 else none

/-- JS `String.prototype.substring(a, b)`: swaps its endpoints when given in
the wrong order, then slices. -/
def jsSubstring (cs : List Char) (a b : Nat) : List Char :=
  (cs.drop (min a b)).take (max a b - min a b)

/-- `.replace(/,(\s*[}\]])/g, '$1')`: drop every comma that is followed by
optional whitespace and a closing brace or bracket; scanning resumes after each
match, as for a JS global regex. Fuelled like the fence strippers; each step
consumes at least one character. -/
def removeTrailingCommasFuel : Nat → List Char → List Char
  | 0, cs => cs
  | _ + 1, [] => []
  | f + 1, c :: rest =>
    if c = ',' then
      let ws := rest.takeWhile Char.isWhitespace
      let after := rest.dropWhile Char.isWhitespace
      match after with
      | b :: rest2 =>
        if b = '}' ∨ b = ']' then ws ++ b :: removeTrailingCommasFuel f rest2
        else c :: removeTrailingCommasFuel f rest
      | [] => c :: removeTrailingCommasFuel f rest
    else c :: removeTrailingCommasFuel f rest

/-- The trailing-comma repair, fuelled by the input length. -/
def removeTrailingCommas (cs : List Char) : List Char :=
  removeTrailingCommasFuel cs.length cs

/-- JS `String.prototype.trim()`: whitespace stripped from both ends. -/
def trimList (cs : List Char) : List Char :=
  ((cs.dropWhile Char.isWhitespace).reverse.dropWhile Char.isWhitespace).reverse

/-- `cleanAndParseJSON` (part_005 lines 8–46). The two `JSON.parse`-and-cast
call sites are embedded as the abstract fallible parsers `parseObj` (parse as
an `AnalysisResult` object) and `parseArr` (parse as a bare place array); a
raised error is the thrown `Error`'s message. -/
def cleanAndParseJSON (parseObj : String → Option AnalysisResult)
    (parseArr : String → Option (List Place)) (text : String) :
    Except String AnalysisResult :=
  let cleanText := stripFences text
  let cs := cleanText.toList
  match firstIdx cs '{', lastIdx cs '}' with
  | some fb, some lb =>
    let jsonCandidate := String.mk (jsSubstring cs fb (lb + 1))
    match parseObj jsonCandidate with
    | some r => .ok r
    | none =>
      let fixedJson := String.mk (removeTrailingCommas jsonCandidate.toList)
      match parseObj fixedJson with
      | some r => .ok r
      | none => .error "JSON structure is malformed."
  | _, _ =>
    -- cleanText.trim().startsWith('[') && cleanText.trim().endsWith(']')
    if (trimList cs).head? = some '[' ∧ (trimList cs).getLast? = some ']' then
      match parseArr cleanText with
      | some places =>
        .ok { summary := "AI Generated Summary", places := places, suggestedItinerary := none }
      | none => .error "No JSON object found in response."
    else .error "No JSON object found in response."

/-! ## Location label decomposer (src/unnamed/part_008, `parseLocation`,
lines 244–265) -/

/-- The result `{ city, district }` of `parseLocation`. -/
structure ParsedLocation where
  city : String
  district : String
  deriving DecidableEq, Repr

/-- The country prefixes of the regex
`/^(台灣|臺灣|日本|南韓|韓國|泰國|越南)\s*/`, in alternation order. -/
def countryPrefixes : List String := ["台灣", "臺灣", "日本", "南韓", "韓國", "泰國", "越南"]

/-- `loc.replace(/^(台灣|臺灣|日本|南韓|韓國|泰國|越南)\s*/, '')`: strip one
leading country name and the whitespace run after it. -/
def stripCountryPrefix (cs : List Char) : List Char :=
  match countryPrefixes.find? (fun p => p.toList.isPrefixOf cs) with
  | some p => (cs.drop p.toList.length).dropWhile Char.isWhitespace
  | none => cs

/-- `cleaned.split(/\s+/)`: split on maximal whitespace runs. A leading run
contributes a leading `""` and a trailing run a trailing `""`, as in JS
(`"a ".split(/\s+/)` is `["a", ""]`). -/
def jsSplitWS : List Char → List (List Char)
  | [] => [[]]
  | c :: rest =>
    let r := jsSplitWS rest
    if c.isWhitespace then
      match rest with
      | [] => [[], []]
      | c2 :: _ => if c2.isWhitespace then r else [] :: r
    else
      match r with
      | [] => [[c]]
      | t :: ts => (c :: t) :: ts

/-- The administrative-suffix characters of `/^(.{2,}[市縣都府])(.+)$/`. -/
def adminMarkers : List Char := ['市', '縣', '都', '府']

/-- The split position chosen by `cleaned.match(/^(.{2,}[市縣都府])(.+)$/)`:
the greedy `.{2,}` selects the largest marker position with at least two
characters before it and one after. (This branch is only reached for
whitespace-free strings — a line terminator would already have split the label
in the `\s+` branch — so `.` excluding line terminators imposes no further
condition.) -/
def adminSplitIdx (cs : List Char) : Option Nat :=
  (List.range cs.length).reverse.find? (fun i =>
    decide (2 ≤ i) && decide (i + 1 < cs.length) && adminMarkers.contains (cs.getD i ' '))

/-- `parseLocation` (part_008 lines 244–265). -/
def parseLocation (loc : String) : ParsedLocation :=
  if loc = "" then ⟨"未分類地區", "其他"⟩
  else
    let cleaned := trimList (stripCountryPrefix loc.toList)
    if cleaned = [] then ⟨"未分類地區", "其他"⟩
    else
      let parts := jsSplitWS cleaned
      if parts.length ≥ 2 then
        ⟨String.mk (parts.headD []),
         String.intercalate " " ((parts.drop 1).map String.mk)⟩
      else
        match adminSplitIdx cleaned with
        | some i =>
          ⟨String.mk (cleaned.take (i + 1)), String.mk (cleaned.drop (i + 1))⟩
        | none => ⟨String.mk cleaned, "市區"⟩

/-- A convenient all-default record for building concrete test inputs. -/
def basePlace : Place :=
  { id := "", name := "", originalText := "", category := .OTHER, subCategory := ""
    description := "", ratingPrediction := 0, priceLevel := "Unknown", tags := []
    locationGuess := "", address := none, openingHours := none, coordinates := none
    googleMapsUri := none, isVerified := false, imageUri := none, websiteUri := none }


/-! ## General-purpose character and split lemmas -/

/-- `Char.ofNat` on a valid code point round-trips through `toNat`. -/
theorem char_toNat_ofNat_valid {n : Nat} (h : Nat.isValidChar n) : (Char.ofNat n).toNat = n := by
  simp [Char.ofNat, dif_pos h, Char.ofNatAux, Char.toNat, UInt32.toNat, BitVec.toNat_ofNatLt]

/-- ASCII lower-casing never produces a space from a non-space. -/
theorem jsToLower_ne_space {c : Char} (h : c ≠ ' ') : jsToLower c ≠ ' ' := by
  unfold jsToLower
  split
  · intro he
    rename_i hu
    have hA : (65 : Nat) ≤ c.toNat := hu.1
    have hZ : c.toNat ≤ 90 := hu.2
    have h2 := congrArg Char.toNat he
    rw [char_toNat_ofNat_valid (by constructor; omega)] at h2
    have h3 : (' ' : Char).toNat = 32 := rfl
    omega
  · exact h

/-- Lower-casing commutes with splitting on spaces. -/
theorem splitOnSpace_map_jsToLower (cs : List Char) :
    splitOnSpace (cs.map jsToLower) = (splitOnSpace cs).map (List.map jsToLower) := by
  induction cs with
  | nil => simp [splitOnSpace]
  | cons c rest ih =>
    simp only [List.map_cons, splitOnSpace, ih]
    cases hs : splitOnSpace rest with
    | nil => simp
    | cons t ts =>
      by_cases hc : c = ' '
      · subst hc
        have : jsToLower ' ' = ' ' := by decide
        simp [this]
      · have hne : jsToLower c ≠ ' ' := jsToLower_ne_space hc
        simp [hc, hne]

/-! ## Claim C1 — the verified record wins, the earlier id is preserved -/

/-- **C1.** If `A` and `B` share a dedup key, exactly one of them is verified,
and `A` is seen first, then `deduplicatePlaces [A, B]` is a single record whose
fields are the verified record's fields and whose `id` is `A`'s. -/
theorem dedup_verified_wins (A B : Place) (hk : dedupKey A = dedupKey B)
    (hv : A.isVerified ≠ B.isVerified) :
    deduplicatePlaces [A, B] = [{ (if A.isVerified then A else B) with id := A.id }] := by
  have hget : mapGet [(dedupKey A, A)] (dedupKey B) = some A := by
    simp [mapGet, List.find?, ← hk]
  simp only [deduplicatePlaces, List.foldl]
  rw [show dedupStep [] A = [(dedupKey A, A)] by simp [dedupStep, mapGet, List.find?, mapSet]]
  simp only [dedupStep, hget]
  cases hA : A.isVerified <;> cases hB : B.isVerified
  · exact absurd (hA.trans hB.symm) hv
  · simp [mapSet, ← hk, hB, List.any, List.map]
  · simp only [hA, hB]
    simp only [not_true, not_false_iff, and_true, and_false, false_and, if_false, if_true]
    simp only [List.map]
  · exact absurd (hA.trans hB.symm) hv

/-- The spec's identity-stability scenario: `A` (id 1, unverified, no
coordinates). -/
def cA : Place := { basePlace with id := "1", name := "Cafe", locationGuess := "Taipei Xinyi" }

/-- The spec's identity-stability scenario: `B` (id 2, verified, with
coordinates). -/
def cB : Place :=
  { basePlace with
    id := "2", name := "Cafe", locationGuess := "Taipei Xinyi"
    isVerified := true, coordinates := some ⟨25, 121⟩ }

/-- Witness for C1 at the spec's own concrete instance. -/
theorem dedup_verified_wins_witness :
    dedupKey cA = dedupKey cB ∧ cA.isVerified ≠ cB.isVerified ∧
    deduplicatePlaces [cA, cB] = [{ cB with id := "1" }] :=
  ⟨by decide, by decide, dedup_verified_wins cA cB (by decide) (by decide)⟩

/-! ## Claim C2 — the dedup key ignores verification status -/

/-- The key-derivation rule exactly as claim C2 (spec §4.4, rules 1–2) states
it, written from the spec's words: the key is the record's map URI exactly when
the URI is present, **verified**, and non-generic; otherwise the case-folded,
whitespace-free name concatenated with the first space-separated token of the
case-folded location guess. -/
def specDedupKey (p : Place) : String :=
  if jsTruthy p.googleMapsUri ∧ p.isVerified = true ∧
      ¬ strContains (p.googleMapsUri.getD "") "search" then
    "URI:" ++ p.googleMapsUri.getD ""
  else
    "NAME:" ++ String.mk (removeWS (p.name.toList.map jsToLower)) ++ "-" ++
      String.mk (removeWS ((splitOnSpace (p.locationGuess.toList.map jsToLower)).headD []))

/-- The amended key-derivation rule: as `specDedupKey` but without the
verification requirement on the URI. -/
def specDedupKeyNoVerify (p : Place) : String :=
  if jsTruthy p.googleMapsUri ∧ ¬ strContains (p.googleMapsUri.getD "") "search" then
    "URI:" ++ p.googleMapsUri.getD ""
  else
    "NAME:" ++ String.mk (removeWS (p.name.toList.map jsToLower)) ++ "-" ++
      String.mk (removeWS ((splitOnSpace (p.locationGuess.toList.map jsToLower)).headD []))

/-- A record with a present, non-generic map URI that is *not* verified. -/
def uriUnverified : Place :=
  { basePlace with
    id := "9", name := "Cafe", locationGuess := "Taipei Xinyi"
    googleMapsUri := some "https://maps.google.com/abc" }

/-- **C2, counterexample.** On an unverified record with a present non-generic
URI, the code keys by the URI while the claim's rule keys by name+location, so
the claimed key derivation is false at this input. -/
theorem dedupKey_ignores_verification_cex :
    dedupKey uriUnverified = "URI:https://maps.google.com/abc" ∧
    specDedupKey uriUnverified = "NAME:cafe-taipei" ∧
    dedupKey uriUnverified ≠ specDedupKey uriUnverified :=
  ⟨by decide, by decide, by decide⟩

/-- **C2, amended.** The dedup key is the record's map URI exactly when that
URI is present and non-generic — regardless of `isVerified` — and otherwise the
normalized name concatenated with the first token of the normalized location
guess. -/
theorem dedupKey_eq_specKeyNoVerify (p : Place) : dedupKey p = specDedupKeyNoVerify p := by
  unfold dedupKey specDedupKeyNoVerify
  by_cases hC : jsTruthy p.googleMapsUri = true ∧
      ¬ strContains (p.googleMapsUri.getD "") "search" = true
  · simp only [if_pos hC]
  · simp only [if_neg hC]
    have hsplit := splitOnSpace_map_jsToLower p.locationGuess.toList
    rw [hsplit]
    cases hs : splitOnSpace p.locationGuess.toList with
    | nil => simp
    | cons t ts => simp

/-- Witness for the amended C2 at the concrete unverified-URI record. -/
theorem dedupKey_eq_specKeyNoVerify_witness :
    dedupKey uriUnverified = specDedupKeyNoVerify uriUnverified :=
  dedupKey_eq_specKeyNoVerify uriUnverified

/-! ## Claim C3 — tie-breaking makes final content order-sensitive -/

/-- First record of a perfect score tie (equal verification, no coordinates,
address or image on either side, equal description lengths). -/
def tieA : Place := { basePlace with id := "1", name := "Cafe", description := "aa" }

/-- Second record of the tie, same dedup key, different description text. -/
def tieB : Place := { basePlace with id := "2", name := "Cafe", description := "bb" }

/-- **C3.** On a perfect score tie the `else scoreNew += 0.5` branch awards the
description tiebreak to the later-seen record, which therefore replaces the
earlier one: running the same two records through `deduplicatePlaces` in the
two orders yields different field content (ignoring `id`), contradicting the
spec's "ties keep the earlier-seen record unchanged" and its order-insensitive
final content requirement. -/
theorem dedup_tie_order_sensitive :
    deduplicatePlaces [tieA, tieB] = [{ tieB with id := "1" }] ∧
    deduplicatePlaces [tieB, tieA] = [{ tieA with id := "2" }] ∧
    (deduplicatePlaces [tieA, tieB]).map (fun p => { p with id := "" }) ≠
      (deduplicatePlaces [tieB, tieA]).map (fun p => { p with id := "" }) :=
  ⟨by decide, by decide, by decide⟩

/-! ## Claims C4 and C7 — retry controller call counts -/

/-- A bare transient 500 error object. -/
def err500 : JsErrObj :=
  { status := some (.num 500), nestedCode := none, nestedStatus := none
    message := none, nestedMessage := none }

/-- An operation whose every invocation fails with a 500 error. -/
def alwaysFail500 : Nat → Except (Option JsErrObj) Unit :=
  fun _ => .error (some err500)

/-- **C4, counterexample.** With the retry parameter set to 3, an operation that
always fails with a transient error is invoked 4 times, not 3: the parameter
counts retries after the initial attempt, not total attempts. -/
theorem retry_count_cex :
    isRetryable err500 = true ∧
    (retryOperation alwaysFail500 3 1000 0).1 = 4 ∧ (4 : Nat) ≠ 3 :=
  ⟨by decide, by decide, by decide⟩

/-- **C4, amended.** An operation that fails on every invocation with a
transient error is invoked exactly `maxAttempts + 1` times — the parameter
counts additional retries after the initial attempt — and the controller then
rejects with the last error thrown. -/
theorem retry_transient_exhausts {α : Type} (op : Nat → Except (Option JsErrObj) α)
    (retries delay idx : Nat)
    (h : ∀ n, ∃ e, op n = .error (some e) ∧ isRetryable e = true) :
    ∃ e, op (idx + retries) = .error (some e) ∧
      retryOperation op retries delay idx = (retries + 1, .error (some e)) := by
  induction retries generalizing delay idx with
  | zero =>
    obtain ⟨e, he, _⟩ := h idx
    refine ⟨e, by simpa using he, ?_⟩
    unfold retryOperation
    rw [he]
  | succ r ih =>
    obtain ⟨e0, he0, hr0⟩ := h idx
    obtain ⟨e, he, hrec⟩ := ih (delay * 2) (idx + 1)
    refine ⟨e, by rw [show idx + (r + 1) = idx + 1 + r by omega]; exact he, ?_⟩
    unfold retryOperation
    rw [he0]
    simp only [hr0, not_true, if_neg, ite_false]
    simp [hrec]

/-- Witness for the amended C4 at a concrete always-failing operation. -/
theorem retry_transient_exhausts_witness :
    ∃ e, alwaysFail500 (0 + 3) = .error (some e) ∧
      retryOperation alwaysFail500 3 1000 0 = (3 + 1, .error (some e)) :=
  retry_transient_exhausts alwaysFail500 3 1000 0 (fun _ => ⟨err500, rfl, by decide⟩)

/-- **C7.** An operation whose first invocation fails with a non-transient
error is invoked exactly once, and the controller rejects with the very error
object the operation threw. -/
theorem retry_nontransient_single_call {α : Type} (op : Nat → Except (Option JsErrObj) α)
    (retries delay idx : Nat) (e : JsErrObj)
    (hop : op idx = .error (some e)) (hr : isRetryable e = false) :
    retryOperation op retries delay idx = (1, .error (some e)) := by
  unfold retryOperation
  rw [hop]
  cases retries with
  | zero => rfl
  | succ r => simp [hr]

/-- A 403-style authorization failure. -/
def err403 : JsErrObj :=
  { status := some (.num 403), nestedCode := none, nestedStatus := none
    message := some "Forbidden", nestedMessage := none }

/-- An operation whose every invocation fails with the 403 error. -/
def alwaysFail403 : Nat → Except (Option JsErrObj) Unit :=
  fun _ => .error (some err403)

/-- Witness for C7 at the concrete 403 operation. -/
theorem retry_nontransient_single_call_witness :
    retryOperation alwaysFail403 3 1000 0 = (1, .error (some err403)) :=
  retry_nontransient_single_call alwaysFail403 3 1000 0 err403 rfl (by decide)

/-! ## Claim C5 — grounding evidence can override a discarded proposed URI -/

/-- A record whose proposed map URI contains the generic `search` indicator. -/
def pBadUri : Place :=
  { basePlace with
    id := "9", name := "CafeA"
    googleMapsUri := some "https://maps.example.com/search?q=x" }

/-- A grounding citation whose title matches the record's name and whose web
URI is a genuine map-provider link. -/
def matchingChunk : Chunk :=
  { webTitle := "CafeA place", webUri := "https://maps.google.com/place/cafea"
    mapsTitle := "", mapsUri := "" }

/-- **C5, counterexample.** The claim demands `isVerified = false` and no map
URI for *every* evidence list once the proposed URI is generic; but a matching
grounding citation replaces the proposed URI before the cleanup runs, so the
record ends verified and carrying the citation's URI. -/
theorem grounding_overrides_bad_uri_cex :
    strContains (pBadUri.googleMapsUri.getD "") "search" = true ∧
    (processPlace (some [matchingChunk]) "f" pBadUri).isVerified = true ∧
    (processPlace (some [matchingChunk]) "f" pBadUri).googleMapsUri =
      some "https://maps.google.com/place/cafea" :=
  ⟨by decide, by decide, by decide⟩

/-- **C5, amended.** When the proposed URI is generic or off-provider *and no
grounding citation matches the record*, reconciliation leaves the record
unverified and with no map URI; a matching citation may instead adopt its own
URI and verify the record. -/
theorem grounding_no_match_unverified (p : Place) (gcs : Option (List Chunk)) (freshId : String)
    (hbad : jsTruthy p.googleMapsUri = true ∧
      (strContains (p.googleMapsUri.getD "") "search" = true ∨
       strContains (p.googleMapsUri.getD "") "google" = false))
    (hnomatch : ∀ cs, gcs = some cs → ∀ c ∈ cs, chunkMatches p.name c = false) :
    (processPlace gcs freshId p).isVerified = false ∧
    (processPlace gcs freshId p).googleMapsUri = none := by
  have hcond : jsTruthy p.googleMapsUri = true ∧
      (strContains (p.googleMapsUri.getD "") "search" = true ∨
       ¬ strContains (p.googleMapsUri.getD "") "google" = true) := by
    refine ⟨hbad.1, ?_⟩
    rcases hbad.2 with hs | hg
    · exact Or.inl hs
    · exact Or.inr (by simp [hg])
  cases gcs with
  | none =>
    refine ⟨rfl, ?_⟩
    simp only [processPlace]
    rw [if_pos hcond]
  | some cs =>
    have hf : List.find? (chunkMatches p.name) cs = none := by
      simp only [List.find?_eq_none]
      intro c hc
      simpa using hnomatch cs rfl c hc
    refine ⟨?_, ?_⟩ <;> simp only [processPlace, hf] <;> try rfl
    rw [if_pos hcond]

/-- A grounding citation unrelated to `pBadUri`. -/
def otherChunk : Chunk :=
  { webTitle := "Other place", webUri := "https://maps.google.com/place/other"
    mapsTitle := "", mapsUri := "" }

/-- Witness for the amended C5: with only an unrelated citation, the search-link
record ends unverified with no URI. -/
theorem grounding_no_match_unverified_witness :
    (processPlace (some [otherChunk]) "f" pBadUri).isVerified = false ∧
    (processPlace (some [otherChunk]) "f" pBadUri).googleMapsUri = none :=
  grounding_no_match_unverified pBadUri (some [otherChunk]) "f" ⟨by decide, Or.inl (by decide)⟩
    (by
      intro cs hcs c hc
      cases hcs
      simp only [List.mem_singleton] at hc
      subst hc
      decide)

/-! ## Claim C6 — a failed parse raises a fixed-message error -/

/-- **C6, counterexample.** On an input with no JSON object at all and parsers
that never succeed, `cleanAndParseJSON` raises its fixed diagnostic message,
which does not carry the original input text. -/
theorem parse_error_fixed_message_cex :
    cleanAndParseJSON (fun _ => none) (fun _ => none) "hello" =
      .error "No JSON object found in response." ∧
    strContains "No JSON object found in response." "hello" = false :=
  ⟨by rfl, by decide⟩

/-- **C6, amended.** For every raw text on which all fallback parsing attempts
fail, `cleanAndParseJSON` raises one of its two fixed diagnostic errors ("No
JSON object found in response." / "JSON structure is malformed.") — the
original text is only logged, not carried on the error — and never returns an
`AnalysisResult`. -/
theorem parse_all_fail_raises_error (parseObj : String → Option AnalysisResult)
    (parseArr : String → Option (List Place)) (text : String)
    (hO : ∀ s, parseObj s = none) (hA : ∀ s, parseArr s = none) :
    cleanAndParseJSON parseObj parseArr text = .error "No JSON object found in response." ∨
    cleanAndParseJSON parseObj parseArr text = .error "JSON structure is malformed." := by
  unfold cleanAndParseJSON
  rcases h1 : firstIdx (stripFences text).toList '{' with _ | fb <;>
    rcases h2 : lastIdx (stripFences text).toList '}' with _ | lb <;>
      simp only [hO, hA] <;> split <;> simp

/-- Witness for the amended C6 at the concrete no-JSON input. -/
theorem parse_all_fail_raises_error_witness :
    cleanAndParseJSON (fun _ => none) (fun _ => none) "hello" =
      .error "No JSON object found in response." ∨
    cleanAndParseJSON (fun _ => none) (fun _ => none) "hello" =
      .error "JSON structure is malformed." :=
  parse_all_fail_raises_error (fun _ => none) (fun _ => none) "hello"
    (fun _ => rfl) (fun _ => rfl)

/-! ## Claim C9 — the location decomposer is total with unclassified defaults -/

/-- **C9.** `parseLocation` maps the empty label and every bare country-prefix
label to the generic unclassified pair, and returns a `(city, district)` pair
on every input (it is total by construction — every branch of the source
returns a pair and none can throw). -/
theorem parseLocation_total_defaults :
    parseLocation "" = ⟨"未分類地區", "其他"⟩ ∧
    (∀ c ∈ countryPrefixes, parseLocation c = ⟨"未分類地區", "其他"⟩) ∧
    (∀ loc : String, ∃ city district, parseLocation loc = ⟨city, district⟩) :=
  ⟨by decide, by decide,
   fun loc => ⟨(parseLocation loc).city, (parseLocation loc).district, rfl⟩⟩

/-- Witness for C9 at a concrete country-prefix-only label. -/
theorem parseLocation_total_defaults_witness :
    parseLocation "台灣" = ⟨"未分類地區", "其他"⟩ :=
  parseLocation_total_defaults.2.1 "台灣" (by decide)

/-! ## Claims C8 and C10 — the deduplicator's identity and frame invariants -/

/-- The dedup key never looks at the `id` field. -/
theorem dedupKey_set_id (p : Place) (x : String) : dedupKey { p with id := x } = dedupKey p := rfl

/-- The loop invariant of `deduplicatePlaces` after the prefix `seen` of the
input has been folded into the accumulated map `m`: every entry is stored
under its own dedup key, keys are unique, every stored record is an input
record up to its `id`, every stored `id` is the `id` of the first input record
carrying that key, and every processed record's key is present. -/
structure DedupInv (seen : List Place) (m : DMap) : Prop where
  keyed : ∀ kp ∈ m, dedupKey kp.2 = kp.1
  keysNodup : (m.map (fun kp => kp.1)).Nodup
  frame : ∀ kp ∈ m, ∃ q ∈ seen, kp.2 = { q with id := kp.2.id }
  firstId : ∀ kp ∈ m, ∃ w, seen.find? (fun q => dedupKey q == kp.1) = some w ∧ kp.2.id = w.id
  hasKey : ∀ q ∈ seen, ∃ kp ∈ m, kp.1 = dedupKey q

/-- The invariant holds initially. -/
theorem DedupInv.nil : DedupInv [] [] :=
  ⟨by simp, by simp, by simp, by simp, by simp⟩

/-- `find?` on an append keeps an answer found on the left. -/
theorem find?_append_some {p : α → Bool} {l₁ l₂ : List α} {w : α}
    (h : l₁.find? p = some w) : (l₁ ++ l₂).find? p = some w := by
  rw [List.find?_append, h]; rfl

/-- `find?` on an append falls through an unsuccessful left part. -/
theorem find?_append_none {p : α → Bool} {l₁ l₂ : List α}
    (h : l₁.find? p = none) : (l₁ ++ l₂).find? p = l₂.find? p := by
  rw [List.find?_append, h]; rfl

/-- One pass of the `forEach` body preserves the invariant. -/
theorem DedupInv.step {seen : List Place} {m : DMap} (inv : DedupInv seen m) (p : Place) :
    DedupInv (seen ++ [p]) (dedupStep m p) := by
  simp only [dedupStep]
  cases hget : mapGet m (dedupKey p) with
  | none =>
    -- insert branch: the key is fresh
    have hnone : m.find? (fun kp => kp.1 == dedupKey p) = none := by
      unfold mapGet at hget
      cases h : m.find? (fun kp => kp.1 == dedupKey p) <;> simp [h] at hget ⊢
    have hknotin : ∀ kp ∈ m, kp.1 ≠ dedupKey p := by
      intro kp hk
      have := List.find?_eq_none.mp hnone kp hk
      simpa using this
    have hany : m.any (fun kp => kp.1 == dedupKey p) = false := by
      simp only [List.any_eq_false]
      intro kp hk
      simpa using hknotin kp hk
    have hseen_nokey : ∀ q ∈ seen, dedupKey q ≠ dedupKey p := by
      intro q hq he
      obtain ⟨kp, hkp, hkeq⟩ := inv.hasKey q hq
      exact hknotin kp hkp (hkeq.trans he)
    have hseenfind : seen.find? (fun q => dedupKey q == dedupKey p) = none := by
      rw [List.find?_eq_none]
      intro q hq
      simpa using hseen_nokey q hq
    rw [show mapSet m (dedupKey p) p = m ++ [(dedupKey p, p)] by
      unfold mapSet; rw [hany]; simp]
    refine ⟨?_, ?_, ?_, ?_, ?_⟩
    · intro kp hk
      rcases List.mem_append.mp hk with h1 | h1
      · exact inv.keyed kp h1
      · simp at h1; subst h1; rfl
    · rw [List.map_append]
      simp only [List.map]
      rw [List.nodup_append]
      refine ⟨inv.keysNodup, List.nodup_singleton _, ?_⟩
      intro a ha hb
      simp at hb
      subst hb
      obtain ⟨kp, hkp, hkeq⟩ := List.mem_map.mp ha
      exact hknotin kp hkp hkeq
    · intro kp hk
      rcases List.mem_append.mp hk with h1 | h1
      · obtain ⟨q, hq, he⟩ := inv.frame kp h1
        exact ⟨q, List.mem_append_left _ hq, he⟩
      · simp at h1; subst h1
        exact ⟨p, List.mem_append_right _ (by simp), rfl⟩
    · intro kp hk
      rcases List.mem_append.mp hk with h1 | h1
      · obtain ⟨w, hw, hid⟩ := inv.firstId kp h1
        exact ⟨w, find?_append_some hw, hid⟩
      · simp at h1; subst h1
        refine ⟨p, ?_, rfl⟩
        rw [find?_append_none hseenfind]
        simp [List.find?]
    · intro q hq
      rcases List.mem_append.mp hq with h1 | h1
      · obtain ⟨kp, hkp, he⟩ := inv.hasKey q h1
        exact ⟨kp, List.mem_append_left _ hkp, he⟩
      · simp at h1; subst h1
        exact ⟨(dedupKey q, q), List.mem_append_right _ (by simp), rfl⟩
  | some existing =>
    dsimp only
    -- an entry with this key already exists
    obtain ⟨kp0, hfind, hkp2⟩ : ∃ kp, m.find? (fun kp => kp.1 == dedupKey p) = some kp ∧
        kp.2 = existing := by
      unfold mapGet at hget
      cases h : m.find? (fun kp => kp.1 == dedupKey p) <;> simp [h] at hget
      exact ⟨_, rfl, hget⟩
    have hkp1 : kp0.1 = dedupKey p := by
      have := List.find?_some hfind
      simpa using this
    have hmem : (dedupKey p, existing) ∈ m := by
      have h0 := List.mem_of_find?_eq_some hfind
      have : kp0 = (dedupKey p, existing) := Prod.ext hkp1 hkp2
      rwa [this] at h0
    have hany : m.any (fun kp => kp.1 == dedupKey p) = true := by
      rw [List.any_eq_true]
      exact ⟨_, hmem, by simp⟩
    obtain ⟨w, hw, hid⟩ := inv.firstId (dedupKey p, existing) hmem
    have hkeep : DedupInv (seen ++ [p]) m := by
      refine ⟨inv.keyed, inv.keysNodup, ?_, ?_, ?_⟩
      · intro kp hk
        obtain ⟨q, hq, he⟩ := inv.frame kp hk
        exact ⟨q, List.mem_append_left _ hq, he⟩
      · intro kp hk
        obtain ⟨w', hw', hid'⟩ := inv.firstId kp hk
        exact ⟨w', find?_append_some hw', hid'⟩
      · intro q hq
        rcases List.mem_append.mp hq with h1 | h1
        · exact inv.hasKey q h1
        · simp at h1; subst h1
          exact ⟨(dedupKey q, existing), hmem, rfl⟩
    have hrepl : DedupInv (seen ++ [p])
        (mapSet m (dedupKey p) { p with id := existing.id }) := by
      rw [show mapSet m (dedupKey p) { p with id := existing.id } =
          m.map (fun kp => if kp.1 == dedupKey p
            then (dedupKey p, { p with id := existing.id }) else kp) by
        unfold mapSet; rw [hany]; simp]
      have hmem' : ∀ kp' ∈ m.map (fun kp => if kp.1 == dedupKey p
          then (dedupKey p, { p with id := existing.id }) else kp),
          kp' = (dedupKey p, { p with id := existing.id }) ∨ (kp' ∈ m ∧ kp'.1 ≠ dedupKey p) := by
        intro kp' hk'
        obtain ⟨kp, hkp, he⟩ := List.mem_map.mp hk'
        by_cases hc : kp.1 = dedupKey p
        · left; rw [← he]; simp [hc]
        · right
          have : kp' = kp := by rw [← he]; simp [hc]
          subst this
          exact ⟨hkp, hc⟩
      refine ⟨?_, ?_, ?_, ?_, ?_⟩
      · intro kp' hk'
        rcases hmem' kp' hk' with h1 | ⟨h1, _⟩
        · subst h1; exact dedupKey_set_id p existing.id
        · exact inv.keyed kp' h1
      · rw [List.map_map]
        rw [List.map_congr_left (g := fun kp => kp.1)]
        · exact inv.keysNodup
        · intro kp hkp
          by_cases hc : kp.1 = dedupKey p <;> simp [hc]
      · intro kp' hk'
        rcases hmem' kp' hk' with h1 | ⟨h1, _⟩
        · subst h1
          exact ⟨p, List.mem_append_right _ (by simp), rfl⟩
        · obtain ⟨q, hq, he⟩ := inv.frame kp' h1
          exact ⟨q, List.mem_append_left _ hq, he⟩
      · intro kp' hk'
        rcases hmem' kp' hk' with h1 | ⟨h1, _⟩
        · subst h1
          exact ⟨w, find?_append_some hw, hid⟩
        · obtain ⟨w', hw', hid'⟩ := inv.firstId kp' h1
          exact ⟨w', find?_append_some hw', hid'⟩
      · intro q hq
        rcases List.mem_append.mp hq with h1 | h1
        · obtain ⟨kp, hkp, he⟩ := inv.hasKey q h1
          refine ⟨if kp.1 == dedupKey p
            then (dedupKey p, { p with id := existing.id }) else kp, List.mem_map_of_mem _ hkp, ?_⟩
          by_cases hc : kp.1 = dedupKey p <;> simp [hc, ← he] <;> exact hc.symm ▸ he ▸ rfl
        · simp at h1; subst h1
          refine ⟨(dedupKey q, { q with id := existing.id }), ?_, rfl⟩
          have := List.mem_map_of_mem (fun kp => if kp.1 == dedupKey q
            then (dedupKey q, { q with id := existing.id }) else kp) hmem
          simpa using this
    split_ifs <;> first | exact hrepl | exact hkeep

/-- Folding any suffix of the input preserves the invariant. -/
theorem DedupInv.fold (rest : List Place) : ∀ (seen : List Place) (m : DMap),
    DedupInv seen m → DedupInv (seen ++ rest) (rest.foldl dedupStep m) := by
  induction rest with
  | nil => intro seen m h; simpa using h
  | cons p rest ih =>
    intro seen m h
    have h1 := ih (seen ++ [p]) (dedupStep m p) (h.step p)
    simpa [List.append_assoc] using h1

/-- The invariant holds of the finished map. -/
theorem dedupInv_final (places : List Place) : DedupInv places (places.foldl dedupStep []) := by
  have h := DedupInv.fold places [] [] DedupInv.nil
  simpa using h

/-- **C10.** Every output record of `deduplicatePlaces` equals some input
record field for field except possibly its `id`, and its `id` is the `id` of
the earliest input record sharing its dedup key: merging never blends fields
of two records. -/
theorem dedup_frame_preserves_fields (places : List Place) (r : Place)
    (hr : r ∈ deduplicatePlaces places) :
    (∃ q ∈ places, r = { q with id := r.id }) ∧
    ∃ w, places.find? (fun q => dedupKey q == dedupKey r) = some w ∧ r.id = w.id := by
  obtain ⟨kp, hkp, hkp2⟩ := List.mem_map.mp hr
  have inv := dedupInv_final places
  have hkey : dedupKey kp.2 = kp.1 := inv.keyed kp hkp
  subst hkp2
  refine ⟨inv.frame kp hkp, ?_⟩
  rw [hkey]
  exact inv.firstId kp hkp

/-- **C8.** On an input whose ids are pairwise distinct, `deduplicatePlaces`
returns no two records sharing one `id`, and every output `id` already
appeared in the input. -/
theorem dedup_ids_nodup_and_subset (places : List Place)
    (h : (places.map (fun p => p.id)).Nodup) :
    ((deduplicatePlaces places).map (fun p => p.id)).Nodup ∧
    ∀ r ∈ deduplicatePlaces places, r.id ∈ places.map (fun p => p.id) := by
  have inv := dedupInv_final places
  constructor
  · unfold deduplicatePlaces
    rw [List.map_map]
    have hpair : (places.foldl dedupStep []).Pairwise (fun a b => a.1 ≠ b.1) := by
      have hx := inv.keysNodup
      rw [List.Nodup, List.pairwise_map] at hx
      exact hx
    rw [List.Nodup, List.pairwise_map]
    refine hpair.imp_of_mem ?_
    intro a b ha hb hne heq
    obtain ⟨wa, hwa, hida⟩ := inv.firstId a ha
    obtain ⟨wb, hwb, hidb⟩ := inv.firstId b hb
    have hwa_mem := List.mem_of_find?_eq_some hwa
    have hwb_mem := List.mem_of_find?_eq_some hwb
    have hpa : dedupKey wa = a.1 := by simpa using List.find?_some hwa
    have hpb : dedupKey wb = b.1 := by simpa using List.find?_some hwb
    have hw_eq : wa = wb :=
      List.inj_on_of_nodup_map h hwa_mem hwb_mem (by rw [← hida, ← hidb]; exact heq)
    exact hne (by rw [← hpa, ← hpb, hw_eq])
  · intro r hr
    obtain ⟨kp, hkp, hkp2⟩ := List.mem_map.mp hr
    obtain ⟨w, hw, hid⟩ := inv.firstId kp hkp
    subst hkp2
    rw [hid]
    exact List.mem_map_of_mem _ (List.mem_of_find?_eq_some hw)

/-- A key-sharing pair with distinct ids: the unverified first record. -/
def dupA : Place := { basePlace with id := "a1", name := "Shrine", locationGuess := "Kyoto East" }

/-- A key-sharing pair with distinct ids: the verified second record. -/
def dupB : Place :=
  { basePlace with id := "a2", name := "Shrine", locationGuess := "Kyoto West", isVerified := true }

/-- Witness for C8 on a concrete merging input. -/
theorem dedup_ids_nodup_and_subset_witness :
    ((deduplicatePlaces [dupA, dupB]).map (fun p => p.id)).Nodup ∧
    ∀ r ∈ deduplicatePlaces [dupA, dupB], r.id ∈ [dupA, dupB].map (fun p => p.id) :=
  dedup_ids_nodup_and_subset [dupA, dupB] (by decide)

/-- Witness for C10 at the concrete merged output record. -/
theorem dedup_frame_preserves_fields_witness :
    (∃ q ∈ [dupA, dupB], { dupB with id := "a1" } = { q with id := "a1" }) ∧
    ∃ w, [dupA, dupB].find? (fun q => dedupKey q == dedupKey { dupB with id := "a1" }) = some w ∧
      "a1" = w.id :=
  dedup_frame_preserves_fields [dupA, dupB] { dupB with id := "a1" } (by decide)

end MapSieve
